import Mathlib

/-!
Shallow embedding of the LEDGAR provision-classification post-processing
code: the per-label threshold tuning, discretization and multi-label
scoring functions of `provision_classification_baselines.py`,
`classification/mlp_classifier_attention.py` and `distilbert_baseline.py`.

Real-valued scores are embedded as rationals (`ℚ`): every operation the
code performs on them is arithmetic and order comparison, which ℚ models
exactly.  Score matrices are lists of rows (`List (List ℚ)`), gold labels
are lists of label lists (`List (List String)`), and `mlb.classes_` is a
list of label strings.
-/

/-- Per-label scores: precision, recall and F1, the value type of the
dictionaries produced by `evaluate_multilabels`. -/
structure PRF where
  precision : ℚ
  recallScore : ℚ
  f1 : ℚ
deriving DecidableEq, Repr

/-- Rows where `l` is both in the gold labels and in the prediction. -/
def tpCount (y y_preds : List (List String)) (l : String) : ℕ :=
  ((y.zip y_preds).filter (fun p => decide (l ∈ p.1 ∧ l ∈ p.2))).length

/-- Rows where `l` is predicted but not in the gold labels. -/
def fpCount (y y_preds : List (List String)) (l : String) : ℕ :=
  ((y.zip y_preds).filter (fun p => decide (l ∉ p.1 ∧ l ∈ p.2))).length

/-- Rows where `l` is in the gold labels but not predicted. -/
def fnCount (y y_preds : List (List String)) (l : String) : ℕ :=
  ((y.zip y_preds).filter (fun p => decide (l ∈ p.1 ∧ l ∉ p.2))).length

def precFromCounts (tp fp : ℕ) : ℚ :=
  if tp + fp = 0 then 0 else (tp : ℚ) / ((tp : ℚ) + (fp : ℚ))

def recFromCounts (tp fn : ℕ) : ℚ :=
  if tp + fn = 0 then 0 else (tp : ℚ) / ((tp : ℚ) + (fn : ℚ))

def f1FromCounts (tp fp fn : ℕ) : ℚ :=
  if 2 * tp + fp + fn = 0 then 0
  else (2 * (tp : ℚ)) / (2 * (tp : ℚ) + (fp : ℚ) + (fn : ℚ))

/-- Precision/recall/F1 of one label over paired gold and predicted rows. -/
def prfOfLabel (y y_preds : List (List String)) (l : String) : PRF :=
  ⟨precFromCounts (tpCount y y_preds l) (fpCount y y_preds l),
   recFromCounts (tpCount y y_preds l) (fnCount y y_preds l),
   f1FromCounts (tpCount y y_preds l) (fpCount y y_preds l) (fnCount y y_preds l)⟩

/-- The labels occurring anywhere in the gold or predicted label lists. -/
def labelsOf (y y_preds : List (List String)) : List String :=
  ((y ++ y_preds).flatten).dedup

/-- Micro average: precision/recall/F1 on the counts pooled over all labels. -/
def microPRF (y y_preds : List (List String)) : PRF :=
  let ls := labelsOf y y_preds
  let tp := (ls.map (tpCount y y_preds)).sum
  let fp := (ls.map (fpCount y y_preds)).sum
  let fn := (ls.map (fnCount y y_preds)).sum
  ⟨precFromCounts tp fp, recFromCounts tp fn, f1FromCounts tp fp fn⟩

/-- Macro average: the unweighted mean of the per-label scores. -/
def macroPRF (y y_preds : List (List String)) : PRF :=
  let ls := labelsOf y y_preds
  let n : ℚ := (ls.length : ℚ)
  ⟨(ls.map (fun l => (prfOfLabel y y_preds l).precision)).sum / n,
   (ls.map (fun l => (prfOfLabel y y_preds l).recallScore)).sum / n,
   (ls.map (fun l => (prfOfLabel y y_preds l).f1)).sum / n⟩

/-- Modelled from the spec: `evaluate_multilabels` lives in the repository's
`utils` module, which is imported by all three pipelines but is not among
the source files; the spec describes it as "multi-label precision/recall/F1"
with "micro/macro multi-label scoring".  It scores predicted label lists
against gold label lists, producing per-label precision/recall/F1 together
with the micro and macro averages over all occurring labels.  (The Python
function also takes a `do_print` flag, pure output formatting, elided here.) -/
def evaluate_multilabels (y y_preds : List (List String)) :
    (String → PRF) × PRF × PRF :=
  (prfOfLabel y y_preds, microPRF y y_preds, macroPRF y y_preds)

/-! ### `stringify_labels` (provision_classification_baselines.py, lines 18-39) -/

/-- Indices of `numpy.where(prediction >= label_threshs)[0]`: positions
where the row's score reaches the label threshold.  numpy only accepts the
elementwise comparison when the two vectors have equal length (it raises
otherwise); the `min` fixes a total meaning that agrees with numpy there. -/
def triggeredIndices (row threshs : List ℚ) : List ℕ :=
  (List.range (min row.length threshs.length)).filter
    (fun i => decide (threshs.getD i 0 ≤ row.getD i 0))

/-- One row of `stringify_labels`: `numpy.take(mlb.classes_, label_indexes)`
on the triggered indices.  Python wraps a nonempty result in `set(...)` and
returns the empty list `[]` otherwise; both denote the same label
collection, kept here in index order. -/
def stringifyRow (classes : List String) (row threshs : List ℚ) : List String :=
  (triggeredIndices row threshs).filterMap (fun i => classes.get? i)

/-- Function `stringify_labels`: turn prediction scores into label strings, one
collection per row.  `label_threshs = none` embeds the Python default
`label_threshs=None`, replaced by the uniform dictionary
`{l: thresh for l in mlb.classes_}`. -/
def stringify_labels (y_vecs : List (List ℚ)) (classes : List String)
    (thresh : ℚ) (label_threshs : Option (String → ℚ)) : List (List String) :=
  let lt : String → ℚ := label_threshs.getD (fun _ => thresh)
  let threshs : List ℚ := classes.map lt
  y_vecs.map (fun row => stringifyRow classes row threshs)

/-! ### `classify_by_labelname` (provision_classification_baselines.py, lines 42-51) -/

/-- Python `x.lower()`. -/
def lowerStr (s : String) : String :=
  String.mk (s.data.map Char.toLower)

/-- Python's substring test `needle in haystack` on character lists. -/
def containsSub (needle haystack : List Char) : Bool :=
  (List.range (haystack.length + 1)).any
    (fun i => decide ((haystack.drop i).take needle.length = needle))

/-- Function `classify_by_labelname`: predict, for each test text, every training
label whose name (or, for a name ending in `'s'`, the name without that
final `'s'`) occurs in the lowercased text.  Python collects the training
labels into a `set`; the embedding keeps them as a deduplicated list. -/
def classify_by_labelname (x_test : List String) (y_train : List (List String)) :
    List (List String) :=
  let label_set := y_train.flatten.dedup
  x_test.map (fun x =>
    label_set.filter (fun label =>
      containsSub label.data (lowerStr x).data ||
      (decide (label.data.getLast? = some 's') &&
        containsSub label.data.dropLast (lowerStr x).data)))

/-! ### `tune_clf_thresholds` (provision_classification_baselines.py, lines 54-75) -/

/-- The grid `thresh_range = [t / 10.0 for t in range(1, 10)]`. -/
def threshRange : List ℚ :=
  (List.range' 1 9).map (fun (t : ℕ) => (t : ℚ) / 10)

/-- Lookup `all_results[thresh][label]['f1']`: the per-label F1 of the predictions
discretized at the single uniform threshold `thresh`, scored against the
gold labels. -/
def clfF1At (y_pred_vecs : List (List ℚ)) (test_y : List (List String))
    (classes : List String) (thresh : ℚ) (label : String) : ℚ :=
  ((evaluate_multilabels test_y (stringify_labels y_pred_vecs classes thresh none)).1
    label).f1

/-- The threshold-selection loop of `tune_clf_thresholds`: starting from
`best_thresh, best_f1 = 0.1, 0.0`, move to a grid threshold exactly when
its F1 is strictly greater than the best seen. -/
def clf_label_threshs (y_pred_vecs : List (List ℚ)) (test_y : List (List String))
    (classes : List String) : String → ℚ :=
  fun label =>
    (threshRange.foldl
      (fun best curr =>
        if best.2 < clfF1At y_pred_vecs test_y classes curr label
        then (curr, clfF1At y_pred_vecs test_y classes curr label)
        else best)
      ((1 : ℚ) / 10, (0 : ℚ))).1

/-- Function `tune_clf_thresholds` of the logistic-regression pipeline.  The Python
function receives `test_x` and the classifier and first computes
`y_pred_vecs = classifier.predict_proba(test_x)`; the classifier's scores
are owned by the ML library (a spec non-goal), so the embedding takes that
probability matrix directly. -/
def tune_clf_thresholds (y_pred_vecs : List (List ℚ)) (test_y : List (List String))
    (classes : List String) : List (List String) × (String → ℚ) :=
  let label_threshs := clf_label_threshs y_pred_vecs test_y classes
  (stringify_labels y_pred_vecs classes (1 / 2) (some label_threshs), label_threshs)

/-- Modelled from the spec: the MLP pipeline imports a `tune_clf_thresholds`
from the repository's `utils` module (absent from the sources) that takes
the score matrix, the gold label lists and the binarizer and returns the
per-label thresholds; the spec describes the shared procedure as "per-label
threshold search maximizing F1 over a grid", so it is modelled as the
threshold-selection part of the logistic-regression pipeline's
`tune_clf_thresholds`. -/
def utils_tune_clf_thresholds (probas : List (List ℚ)) (gold : List (List String))
    (classes : List String) : String → ℚ :=
  clf_label_threshs probas gold classes

/-! ### `tune_threshs` (distilbert_baseline.py 214-228,
mlp_classifier_attention.py 52-69) and the DistilBERT discretization -/

/-- The grid `numpy.linspace(a, b, num)`: `num` evenly spaced points from `a` to
`b` inclusive. -/
def linspace (a b : ℚ) (num : ℕ) : List ℚ :=
  (List.range num).map (fun (i : ℕ) => a + (b - a) * (i : ℚ) / ((num : ℚ) - 1))

/-- Column `i` of a matrix, `m[:, i]`. -/
def column (m : List (List ℚ)) (i : ℕ) : List ℚ :=
  m.map (fun row => row.getD i 0)

/-- Column count `m.shape[1]` of a rectangular matrix. -/
def numCols (m : List (List ℚ)) : ℕ :=
  (m.headD []).length

/-- Minimum `numpy.min` of a column (junk 0 on the empty column, where numpy raises). -/
def colMin (l : List ℚ) : ℚ :=
  match l with
  | [] => 0
  | x :: xs => xs.foldl min x

/-- Maximum `numpy.max` of a column (junk 0 on the empty column, where numpy raises). -/
def colMax (l : List ℚ) : ℚ :=
  match l with
  | [] => 0
  | x :: xs => xs.foldl max x

/-- Python's `max(xs, key=f)`: the first element of `xs` attaining the
maximal key (junk 0 on the empty list, where Python raises). -/
def pymax (f : ℚ → ℚ) (xs : List ℚ) : ℚ :=
  match xs with
  | [] => 0
  | x :: rest => rest.foldl (fun best t => if f best < f t then t else best) x

/-- Binary `sklearn.metrics.f1_score(y_true=truth_col, y_pred=pred_col)` for a
binary 0/1 truth column and a boolean prediction column. -/
def binF1 (truth : List ℚ) (pred : List Bool) : ℚ :=
  let pairs := truth.zip pred
  let tp := (pairs.filter (fun p => decide (p.1 = 1) && p.2)).length
  let fp := (pairs.filter (fun p => decide (p.1 ≠ 1) && p.2)).length
  let fn := (pairs.filter (fun p => decide (p.1 = 1) && !p.2)).length
  f1FromCounts tp fp fn

/-- The F1 that `tune_threshs` evaluates for candidate `t` on column `i`:
`f1_score(y_true=truth[:, i], y_pred=(probas[:, i] > t))`. -/
def colF1At (probas truth : List (List ℚ)) (i : ℕ) (t : ℚ) : ℚ :=
  binF1 (column truth i) ((column probas i).map (fun x => decide (t < x)))

/-- The candidate grid of `tune_threshs` for column `i`: 100 evenly spaced
points between the column's minimum and maximum. -/
def colGrid (probas : List (List ℚ)) (i : ℕ) : List ℚ :=
  linspace (colMin (column probas i)) (colMax (column probas i)) 100

/-- Function `tune_threshs` of the DistilBERT pipeline: per column, the first
grid point maximizing the F1 of the strict-threshold predictions. -/
def tune_threshs_distil (probas truth : List (List ℚ)) : List ℚ :=
  (List.range (numCols probas)).map
    (fun i => pymax (colF1At probas truth i) (colGrid probas i))

/-- Function `tune_threshs` of the MLP pipeline: the body is textually identical to
the DistilBERT one, followed by `res[res == 0] = 0.5`. -/
def tune_threshs_mlp (probas truth : List (List ℚ)) : List ℚ :=
  let res := (List.range (numCols probas)).map
    (fun i => pymax (colF1At probas truth i) (colGrid probas i))
  res.map (fun x => if x = 0 then 1 / 2 else x)

/-- Function `apply_threshs` (distilbert_baseline.py, lines 231-237): per column a
strict comparison `probas[:, i] > threshs[i]`, written back as 0/1. -/
def apply_threshs (probas : List (List ℚ)) (threshs : List ℚ) : List (List ℚ) :=
  probas.map (fun row =>
    (List.range row.length).map
      (fun i => if threshs.getD i 0 < row.getD i 0 then (1 : ℚ) else 0))

/-- Function `multihot_to_label_lists` (distilbert_baseline.py, lines 240-252) with
the label map `label ↦ index in classes` (whose inverse the Python builds):
per row, the labels of the strictly positive entries. -/
def multihot_to_label_lists (label_array : List (List ℚ)) (classes : List String) :
    List (List String) :=
  label_array.map (fun row =>
    ((List.range row.length).filter (fun j => decide (0 < row.getD j 0))).filterMap
      (fun j => classes.get? j))

/-- The multi-hot binarization `mlb.transform` of gold label lists, as
`DonData` hands it to the DistilBERT pipeline. -/
def goldMultihot (classes : List String) (y : List (List String)) : List (List ℚ) :=
  y.map (fun lbls => classes.map (fun c => if c ∈ lbls then (1 : ℚ) else 0))

/-! ### The three pipelines' evaluation wiring

Each `__main__`/`main` block ends in: obtain model scores for a split,
tune per-label thresholds, discretize, score with `evaluate_multilabels`.
A `Splits` value carries, for the dev and test splits, the model's score
matrix on the split (the model itself is ML-library-owned, a spec
non-goal) and the split's gold labels. -/

structure Splits where
  devScores : List (List ℚ)
  devGold : List (List String)
  testScores : List (List ℚ)
  testGold : List (List String)

/-- Scores the LR `__main__` (line 98) passes to its threshold tuner. -/
def lrTuneScores (S : Splits) : List (List ℚ) := S.testScores

/-- Gold labels the LR `__main__` (line 98) passes to its threshold tuner. -/
def lrTuneGold (S : Splits) : List (List String) := S.testGold

/-- Gold labels the LR `__main__` (line 99) scores against. -/
def lrEvalGold (S : Splits) : List (List String) := S.testGold

/-- The LR `__main__`'s predicted label lists (line 98). -/
def lrPredictions (classes : List String) (S : Splits) : List (List String) :=
  (tune_clf_thresholds S.testScores S.testGold classes).1

/-- The LR `__main__`'s final scoring call (line 99). -/
def lrResult (classes : List String) (S : Splits) : (String → PRF) × PRF × PRF :=
  evaluate_multilabels S.testGold (lrPredictions classes S)

/-- Scores the MLP `__main__` (line 172) passes to its threshold tuner. -/
def mlpTuneScores (S : Splits) : List (List ℚ) := S.devScores

/-- Gold labels the MLP `__main__` (line 172) passes to its threshold tuner. -/
def mlpTuneGold (S : Splits) : List (List String) := S.devGold

/-- Gold labels the MLP `__main__` (line 175) scores against. -/
def mlpEvalGold (S : Splits) : List (List String) := S.testGold

/-- The MLP `__main__`'s predicted label lists (lines 172-174): thresholds
tuned on the dev-split scores, then `stringify_labels` on the test-split
scores. -/
def mlpPredictions (classes : List String) (S : Splits) : List (List String) :=
  stringify_labels S.testScores classes (1 / 2)
    (some (utils_tune_clf_thresholds S.devScores S.devGold classes))

/-- The MLP `__main__`'s final scoring call (line 175). -/
def mlpResult (classes : List String) (S : Splits) : (String → PRF) × PRF × PRF :=
  evaluate_multilabels S.testGold (mlpPredictions classes S)

/-- Scores the DistilBERT `main` (lines 325-328) passes to its threshold
tuner: the model's scores on the evaluated split (`--mode test`). -/
def distilTuneScores (S : Splits) : List (List ℚ) := S.testScores

/-- Multi-hot gold labels the DistilBERT `main` (lines 325-328) passes to
its threshold tuner: the truth of the evaluated split. -/
def distilTuneGoldM (classes : List String) (S : Splits) : List (List ℚ) :=
  goldMultihot classes S.testGold

/-- Gold label lists the DistilBERT `main` (line 336) scores against. -/
def distilEvalGold (classes : List String) (S : Splits) : List (List String) :=
  multihot_to_label_lists (goldMultihot classes S.testGold) classes

/-- The DistilBERT `main`'s predicted label lists (lines 329-337). -/
def distilPredictions (classes : List String) (S : Splits) : List (List String) :=
  multihot_to_label_lists
    (apply_threshs S.testScores
      (tune_threshs_distil S.testScores (goldMultihot classes S.testGold)))
    classes

/-- The DistilBERT `main`'s final scoring call (lines 335-339). -/
def distilResult (classes : List String) (S : Splits) : (String → PRF) × PRF × PRF :=
  evaluate_multilabels (distilEvalGold classes S) (distilPredictions classes S)

/-! ### Helper lemmas -/

theorem f1FromCounts_nonneg (tp fp fn : ℕ) : 0 ≤ f1FromCounts tp fp fn := by
  unfold f1FromCounts
  split
  · exact le_refl 0
  · positivity

theorem clfF1At_nonneg (P : List (List ℚ)) (G : List (List String))
    (C : List String) (t : ℚ) (l : String) : 0 ≤ clfF1At P G C t l :=
  f1FromCounts_nonneg _ _ _

/-- Invariants of the best-threshold fold of `tune_clf_thresholds`: the
result is drawn from the start value and the grid, its recorded score
bounds every grid score, the recorded score is realized (or the start
value survived untouched), and on a sorted grid the first maximizer wins. -/
theorem foldBest_spec (f : ℚ → ℚ) (l : List ℚ) (b : ℚ × ℚ)
    (hb : b.2 ≤ f b.1) (hlo : ∀ t ∈ l, b.1 ≤ t) (hsort : l.Pairwise (· ≤ ·)) :
    (((l.foldl (fun best t => if best.2 < f t then (t, f t) else best) b).1 = b.1 ∨
        (l.foldl (fun best t => if best.2 < f t then (t, f t) else best) b).1 ∈ l) ∧
      b.2 ≤ (l.foldl (fun best t => if best.2 < f t then (t, f t) else best) b).2 ∧
      (l.foldl (fun best t => if best.2 < f t then (t, f t) else best) b).2 ≤
        f (l.foldl (fun best t => if best.2 < f t then (t, f t) else best) b).1 ∧
      (∀ t ∈ l,
        f t ≤ (l.foldl (fun best t => if best.2 < f t then (t, f t) else best) b).2) ∧
      (∀ t ∈ l,
        f t = (l.foldl (fun best t => if best.2 < f t then (t, f t) else best) b).2 →
        (l.foldl (fun best t => if best.2 < f t then (t, f t) else best) b).1 ≤ t) ∧
      ((l.foldl (fun best t => if best.2 < f t then (t, f t) else best) b) = b ∨
        (b.2 < (l.foldl (fun best t => if best.2 < f t then (t, f t) else best) b).2 ∧
          (l.foldl (fun best t => if best.2 < f t then (t, f t) else best) b).2 =
            f (l.foldl (fun best t => if best.2 < f t then (t, f t) else best) b).1))) := by
  induction l generalizing b with
  | nil =>
    refine ⟨Or.inl rfl, le_refl _, hb, ?_, ?_, Or.inl rfl⟩ <;> intro t ht <;> cases ht
  | cons t0 rest ih =>
    rw [List.pairwise_cons] at hsort
    rw [List.foldl_cons]
    by_cases h : b.2 < f t0
    · simp only [if_pos h]
      obtain ⟨m1, m2, m3, m4, m5, m6⟩ :=
        ih (t0, f t0) (le_refl _) (fun t ht => hsort.1 t ht) hsort.2
      refine ⟨?_, ?_, m3, ?_, ?_, ?_⟩
      · rcases m1 with h1 | h1
        · exact Or.inr (h1 ▸ List.mem_cons_self t0 rest)
        · exact Or.inr (List.mem_cons_of_mem _ h1)
      · exact le_trans h.le m2
      · intro t ht
        rcases List.mem_cons.mp ht with rfl | ht'
        · exact m2
        · exact m4 t ht'
      · intro t ht hft
        rcases List.mem_cons.mp ht with rfl | ht'
        · rcases m6 with h6 | h6
          · rw [h6]
          · exact absurd h6.1 (not_lt.mpr (le_of_eq hft.symm))
        · exact m5 t ht' hft
      · rcases m6 with h6 | h6
        · rw [h6]
          exact Or.inr ⟨h, rfl⟩
        · exact Or.inr ⟨lt_trans h h6.1, h6.2⟩
    · simp only [if_neg h]
      push_neg at h
      obtain ⟨m1, m2, m3, m4, m5, m6⟩ :=
        ih b hb (fun t ht => hlo t (List.mem_cons_of_mem _ ht)) hsort.2
      refine ⟨?_, m2, m3, ?_, ?_, m6⟩
      · rcases m1 with h1 | h1
        · exact Or.inl h1
        · exact Or.inr (List.mem_cons_of_mem _ h1)
      · intro t ht
        rcases List.mem_cons.mp ht with rfl | ht'
        · exact le_trans h m2
        · exact m4 t ht'
      · intro t ht hft
        rcases List.mem_cons.mp ht with rfl | ht'
        · rcases m6 with h6 | h6
          · rw [h6]
            exact hlo t (List.mem_cons_self _ _)
          · exact absurd h6.1 (not_lt.mpr (le_trans (le_of_eq hft.symm) h))
        · exact m5 t ht' hft

theorem threshRange_lb : ∀ t ∈ threshRange, (1 : ℚ) / 10 ≤ t := by
  simp only [threshRange, List.range']
  norm_num

theorem threshRange_sorted : threshRange.Pairwise (· ≤ ·) := by
  simp only [threshRange, List.range']
  norm_num [List.pairwise_cons]

theorem one_tenth_mem_threshRange : (1 : ℚ) / 10 ∈ threshRange := by
  norm_num [threshRange, List.range']

/-- Consequences of the fold invariants for the threshold-selection loop of
`tune_clf_thresholds`: grid membership, maximality of the selected
threshold's F1, first(-smallest)-maximizer tie-breaking, and the all-zero
fallback. -/
theorem clf_label_threshs_spec (P : List (List ℚ)) (G : List (List String))
    (C : List String) (label : String) :
    clf_label_threshs P G C label ∈ threshRange ∧
    (∀ t ∈ threshRange,
      clfF1At P G C t label ≤ clfF1At P G C (clf_label_threshs P G C label) label) ∧
    (∀ t ∈ threshRange,
      clfF1At P G C t label = clfF1At P G C (clf_label_threshs P G C label) label →
      clf_label_threshs P G C label ≤ t) ∧
    ((∀ t ∈ threshRange, clfF1At P G C t label ≤ 0) →
      clf_label_threshs P G C label = 1 / 10) := by
  have hb : ((1 : ℚ) / 10, (0 : ℚ)).2 ≤
      (fun t => clfF1At P G C t label) ((1 : ℚ) / 10, (0 : ℚ)).1 :=
    clfF1At_nonneg P G C _ label
  have hlo : ∀ t ∈ threshRange, ((1 : ℚ) / 10, (0 : ℚ)).1 ≤ t := threshRange_lb
  have hsort : threshRange.Pairwise (· ≤ ·) := threshRange_sorted
  have h10 : (1 : ℚ) / 10 ∈ threshRange := one_tenth_mem_threshRange
  obtain ⟨m1, m2, m3, m4, m5, m6⟩ :=
    foldBest_spec (fun t => clfF1At P G C t label) threshRange
      ((1 : ℚ) / 10, (0 : ℚ)) hb hlo hsort
  set r := threshRange.foldl
    (fun best t =>
      if best.2 < (fun t => clfF1At P G C t label) t
      then (t, (fun t => clfF1At P G C t label) t) else best)
    ((1 : ℚ) / 10, (0 : ℚ)) with hr
  have hdef : clf_label_threshs P G C label = r.1 := rfl
  have hmem : r.1 ∈ threshRange := by
    rcases m1 with h1 | h1
    · rw [h1]; exact h10
    · exact h1
  have hr2 : r.2 = clfF1At P G C r.1 label := by
    rcases m6 with h6 | h6
    · have hle := m4 _ h10
      rw [h6] at hle ⊢
      exact (le_antisymm hle (clfF1At_nonneg P G C _ label)).symm
    · exact h6.2
  refine ⟨hdef ▸ hmem, ?_, ?_, ?_⟩
  · intro t ht
    rw [hdef]
    exact le_trans (m4 t ht) (hr2 ▸ le_refl r.2)
  · intro t ht hft
    rw [hdef]
    rw [hdef, ← hr2] at hft
    exact m5 t ht hft
  · intro hz
    rw [hdef]
    rcases m6 with h6 | h6
    · rw [h6]
    · exact absurd (lt_of_lt_of_le h6.1 (hr2 ▸ hz r.1 hmem)) (lt_irrefl 0)

/-- C1: for every probability matrix and gold label lists,
`tune_clf_thresholds` returns, for each label in `mlb.classes_`, a
threshold from the grid {0.1, ..., 0.9} whose per-label F1 — obtained by
discretizing all predictions at that single uniform grid threshold and
scoring them against the gold labels — is greater than or equal to the F1
attained at every other threshold in the grid for that label. -/
theorem tune_clf_thresholds_maximizes_per_label_f1
    (y_pred_vecs : List (List ℚ)) (test_y : List (List String))
    (classes : List String) (label : String) (hlabel : label ∈ classes)
    (t : ℚ) (ht : t ∈ threshRange) :
    (tune_clf_thresholds y_pred_vecs test_y classes).2 label ∈ threshRange ∧
    clfF1At y_pred_vecs test_y classes t label ≤
      clfF1At y_pred_vecs test_y classes
        ((tune_clf_thresholds y_pred_vecs test_y classes).2 label) label := by
  obtain ⟨hmem, hmax, _, _⟩ := clf_label_threshs_spec y_pred_vecs test_y classes label
  exact ⟨hmem, hmax t ht⟩

theorem tune_clf_thresholds_maximizes_per_label_f1_witness :
    ("a" ∈ (["a"] : List String)) ∧ ((1 : ℚ) / 2 ∈ threshRange) ∧
    ((tune_clf_thresholds [[1]] [["a"]] ["a"]).2 "a" ∈ threshRange ∧
      clfF1At [[1]] [["a"]] ["a"] (1 / 2) "a" ≤
        clfF1At [[1]] [["a"]] ["a"]
          ((tune_clf_thresholds [[1]] [["a"]] ["a"]).2 "a") "a") :=
  ⟨by simp, by norm_num [threshRange, List.range'],
    tune_clf_thresholds_maximizes_per_label_f1 [[1]] [["a"]] ["a"] "a"
      (by simp) (1 / 2) (by norm_num [threshRange, List.range'])⟩

/-- C10: every threshold `tune_clf_thresholds` returns lies in
{0.1, ..., 0.9}; when several grid thresholds attain the maximal F1 for a
label it returns the smallest of them; and when no grid threshold attains
a strictly positive F1 for a label, that label's threshold is 0.1. -/
theorem tune_clf_thresholds_range_and_ties
    (y_pred_vecs : List (List ℚ)) (test_y : List (List String))
    (classes : List String) (label : String) :
    (tune_clf_thresholds y_pred_vecs test_y classes).2 label ∈ threshRange ∧
    (∀ t ∈ threshRange,
      clfF1At y_pred_vecs test_y classes t label =
        clfF1At y_pred_vecs test_y classes
          ((tune_clf_thresholds y_pred_vecs test_y classes).2 label) label →
      (tune_clf_thresholds y_pred_vecs test_y classes).2 label ≤ t) ∧
    ((∀ t ∈ threshRange, ¬ 0 < clfF1At y_pred_vecs test_y classes t label) →
      (tune_clf_thresholds y_pred_vecs test_y classes).2 label = 1 / 10) := by
  obtain ⟨hmem, _, htie, hzero⟩ := clf_label_threshs_spec y_pred_vecs test_y classes label
  exact ⟨hmem, htie, fun hz => hzero (fun t ht => not_lt.mp (hz t ht))⟩

/-- On the single-row score matrix `[[0]]` no positive threshold triggers,
so every grid threshold scores F1 = 0. -/
theorem clfF1At_single_zero (t : ℚ) (ht : 0 < t) :
    clfF1At [[0]] [["a"]] ["a"] t ("a") = 0 := by
  norm_num [clfF1At, stringify_labels, stringifyRow, triggeredIndices,
    evaluate_multilabels, prfOfLabel, tpCount, fpCount, fnCount, f1FromCounts,
    ht.not_le]

theorem tune_clf_thresholds_range_and_ties_witness :
    (tune_clf_thresholds [[0]] [["a"]] ["a"]).2 "a" ∈ threshRange ∧
    (tune_clf_thresholds [[0]] [["a"]] ["a"]).2 "a" ≤ 2 / 10 ∧
    (tune_clf_thresholds [[0]] [["a"]] ["a"]).2 "a" = 1 / 10 := by
  obtain ⟨h1, h2, h3⟩ := tune_clf_thresholds_range_and_ties [[0]] [["a"]] ["a"] "a"
  have hz : ∀ t ∈ threshRange, ¬ 0 < clfF1At [[0]] [["a"]] ["a"] t ("a") := by
    intro t htr
    have hpos : 0 < t := lt_of_lt_of_le (by norm_num) (threshRange_lb t htr)
    rw [clfF1At_single_zero t hpos]
    exact lt_irrefl 0
  have h4 := h3 hz
  refine ⟨h1, ?_, h4⟩
  refine h2 (2 / 10) (by norm_num [threshRange, List.range']) ?_
  rw [clfF1At_single_zero (2 / 10) (by norm_num), h4,
    clfF1At_single_zero (1 / 10) (by norm_num)]

theorem getD_map_get? {α β : Type} (f : α → β) (l : List α) (i : ℕ) (a : α)
    (d : β) (h : l.get? i = some a) : (l.map f).getD i d = f a := by
  rw [List.getD_eq_getElem?_getD, ← List.get?_eq_getElem?, List.get?_map, h,
    Option.map_some', Option.getD_some]

/-- Membership in one discretized row: a label is produced exactly when some
triggered index points at it. -/
theorem mem_stringifyRow (classes : List String) (row threshs : List ℚ)
    (l : String) :
    l ∈ stringifyRow classes row threshs ↔
      ∃ i, i < min row.length threshs.length ∧ threshs.getD i 0 ≤ row.getD i 0 ∧
        classes.get? i = some l := by
  simp only [stringifyRow, triggeredIndices, List.mem_filterMap, List.mem_filter,
    List.mem_range, decide_eq_true_eq]
  constructor
  · rintro ⟨i, ⟨hi, hle⟩, hg⟩
    exact ⟨i, hi, hle, hg⟩
  · rintro ⟨i, hi, hle, hg⟩
    exact ⟨i, ⟨hi, hle⟩, hg⟩

/-- The row of `stringify_labels` at a valid index `r`. -/
theorem stringify_labels_getD (y_vecs : List (List ℚ)) (classes : List String)
    (thresh : ℚ) (label_threshs : Option (String → ℚ)) (r : ℕ) (row : List ℚ)
    (hrow : y_vecs.get? r = some row) :
    (stringify_labels y_vecs classes thresh label_threshs).getD r [] =
      stringifyRow classes row (classes.map (label_threshs.getD (fun _ => thresh))) := by
  rw [List.getD_eq_getElem?_getD, ← List.get?_eq_getElem?, stringify_labels,
    List.get?_map, hrow, Option.map_some', Option.getD_some]

/-- C3: `stringify_labels` produces exactly one predicted label collection
per input row; a label is in a row's collection iff the row's score at the
label's index reaches that label's threshold; and when no per-label
threshold dictionary is supplied the single `thresh` value is the
threshold of every label. -/
theorem stringify_labels_spec (y_vecs : List (List ℚ)) (classes : List String)
    (thresh : ℚ) (lt : String → ℚ) :
    (stringify_labels y_vecs classes thresh (some lt)).length = y_vecs.length ∧
    (∀ r row, y_vecs.get? r = some row → row.length = classes.length →
      classes.Nodup → ∀ i l, classes.get? i = some l →
        (l ∈ (stringify_labels y_vecs classes thresh (some lt)).getD r [] ↔
          lt l ≤ row.getD i 0)) ∧
    (∀ t' : ℚ, stringify_labels y_vecs classes thresh none =
      stringify_labels y_vecs classes t' (some (fun _ => thresh))) := by
  refine ⟨by simp [stringify_labels], ?_, fun t' => rfl⟩
  intro r row hrow hlen hnd i l hil
  rw [stringify_labels_getD y_vecs classes thresh (some lt) r row hrow]
  have hltdef : (some lt).getD (fun _ => thresh) = lt := rfl
  rw [hltdef]
  have hi : i < classes.length := by
    rcases List.get?_eq_some.mp hil with ⟨h, _⟩
    exact h
  have hmap : (classes.map lt).getD i 0 = lt l := getD_map_get? lt classes i l 0 hil
  rw [mem_stringifyRow]
  constructor
  · rintro ⟨j, hj, hle, hgj⟩
    have hij : i = j := by
      apply List.getElem?_inj hi hnd
      rw [← List.get?_eq_getElem?, ← List.get?_eq_getElem?, hil, hgj]
    subst hij
    rwa [hmap] at hle
  · intro hle
    refine ⟨i, ?_, ?_, hil⟩
    · rw [List.length_map, hlen, min_self]
      exact hlen ▸ hi
    · rwa [hmap]

theorem stringify_labels_spec_witness :
    "a" ∈ (stringify_labels [[1]] ["a"] 0 (some (fun _ => 1 / 2))).getD 0 [] ∧
    (stringify_labels [[1]] ["a"] 0 (some (fun _ => 1 / 2))).length = 1 := by
  obtain ⟨hlen, hmem, _⟩ := stringify_labels_spec [[1]] ["a"] 0 (fun _ => 1 / 2)
  exact ⟨(hmem 0 [1] rfl rfl (by simp) 0 "a" rfl).mpr (by norm_num), hlen⟩

/-- C8: `stringify_labels` output is well-formed: one entry per row of the
probability matrix, every predicted label is an element of `mlb.classes_`,
and a row in which no label's score reaches its threshold yields an empty
collection. -/
theorem stringify_labels_wellformed (y_vecs : List (List ℚ)) (classes : List String)
    (thresh : ℚ) (label_threshs : Option (String → ℚ)) :
    (stringify_labels y_vecs classes thresh label_threshs).length = y_vecs.length ∧
    (∀ out ∈ stringify_labels y_vecs classes thresh label_threshs,
      ∀ l ∈ out, l ∈ classes) ∧
    (∀ r row, y_vecs.get? r = some row →
      (∀ i l, classes.get? i = some l →
        row.getD i 0 < label_threshs.getD (fun _ => thresh) l) →
      (stringify_labels y_vecs classes thresh label_threshs).getD r [] = []) := by
  refine ⟨by simp [stringify_labels], ?_, ?_⟩
  · intro out hout l hl
    simp only [stringify_labels, List.mem_map] at hout
    obtain ⟨row, _, rfl⟩ := hout
    rcases (mem_stringifyRow classes row _ l).mp hl with ⟨i, _, _, hg⟩
    exact List.get?_mem hg
  · intro r row hrow hbelow
    rw [stringify_labels_getD y_vecs classes thresh label_threshs r row hrow]
    rcases h : stringifyRow classes row
        (classes.map (label_threshs.getD (fun _ => thresh))) with _ | ⟨l, rest⟩
    · rfl
    · exfalso
      have hl : l ∈ stringifyRow classes row
          (classes.map (label_threshs.getD (fun _ => thresh))) := by
        rw [h]; exact List.mem_cons_self _ _
      rcases (mem_stringifyRow _ _ _ _).mp hl with ⟨i, hi, hle, hg⟩
      have hmap : (classes.map (label_threshs.getD (fun _ => thresh))).getD i 0 =
          label_threshs.getD (fun _ => thresh) l :=
        getD_map_get? (label_threshs.getD (fun _ => thresh)) classes i l 0 hg
      rw [hmap] at hle
      exact absurd (hbelow i l hg) (not_lt.mpr hle)

theorem stringify_labels_wellformed_witness :
    (stringify_labels [[0], [1]] ["a"] (1 / 2) none).length = 2 ∧
    (stringify_labels [[0], [1]] ["a"] (1 / 2) none).getD 0 [] = [] := by
  obtain ⟨hlen, _, hempty⟩ := stringify_labels_wellformed [[0], [1]] ["a"] (1 / 2) none
  refine ⟨hlen, hempty 0 [0] rfl ?_⟩
  intro i l hg
  match i, hg with
  | 0, hg =>
    simp only [List.getD]
    norm_num

/-- Boolean `containsSub` is the substring relation: the haystack splits
around the needle. -/
theorem containsSub_iff (needle haystack : List Char) :
    containsSub needle haystack = true ↔ ∃ s t, s ++ needle ++ t = haystack := by
  simp only [containsSub, List.any_eq_true, List.mem_range, decide_eq_true_eq]
  constructor
  · rintro ⟨i, _, htake⟩
    refine ⟨haystack.take i, (haystack.drop i).drop needle.length, ?_⟩
    conv_rhs => rw [← List.take_append_drop i haystack]
    rw [List.append_assoc]
    congr 1
    conv_rhs => rw [← List.take_append_drop needle.length (haystack.drop i)]
    rw [htake]
  · rintro ⟨s, t, rfl⟩
    refine ⟨s.length, ?_, ?_⟩
    · simp only [List.length_append]
      omega
    · rw [List.append_assoc, List.drop_left, List.take_left]

/-- C9: `classify_by_labelname` returns exactly one predicted label list
per test text, and predicts precisely the labels occurring in the training
label lists whose name — or, for a name ending in `'s'`, the name with the
final `'s'` removed — is a substring of the lowercased text. -/
theorem classify_by_labelname_spec (x_test : List String)
    (y_train : List (List String)) :
    (classify_by_labelname x_test y_train).length = x_test.length ∧
    (∀ r x, x_test.get? r = some x →
      ∀ l, l ∈ (classify_by_labelname x_test y_train).getD r [] ↔
        (l ∈ y_train.flatten ∧
          ((∃ s t, s ++ l.data ++ t = (lowerStr x).data) ∨
            (l.data.getLast? = some 's' ∧
              ∃ s t, s ++ l.data.dropLast ++ t = (lowerStr x).data)))) := by
  refine ⟨by simp [classify_by_labelname], ?_⟩
  intro r x hx l
  have hrow : (classify_by_labelname x_test y_train).getD r [] =
      y_train.flatten.dedup.filter (fun label =>
        containsSub label.data (lowerStr x).data ||
        (decide (label.data.getLast? = some 's') &&
          containsSub label.data.dropLast (lowerStr x).data)) := by
    rw [List.getD_eq_getElem?_getD, ← List.get?_eq_getElem?, classify_by_labelname,
      List.get?_map, hx, Option.map_some', Option.getD_some]
  rw [hrow, List.mem_filter, List.mem_dedup]
  simp only [Bool.or_eq_true, Bool.and_eq_true, decide_eq_true_eq, containsSub_iff]

theorem classify_by_labelname_spec_witness :
    "a" ∈ (classify_by_labelname ["ab"] [["a"]]).getD 0 [] :=
  ((classify_by_labelname_spec ["ab"] [["a"]]).2 0 "ab" rfl ("a")).mpr
    ⟨by simp, Or.inl ⟨[], ['b'], by decide⟩⟩

/-- Per-label F1 as the harmonic mean of the returned precision and recall
(with the all-zero convention). -/
theorem f1FromCounts_harmonic (tp fp fn : ℕ) :
    f1FromCounts tp fp fn =
      (if precFromCounts tp fp + recFromCounts tp fn = 0 then 0
       else 2 * precFromCounts tp fp * recFromCounts tp fn /
         (precFromCounts tp fp + recFromCounts tp fn)) := by
  rcases Nat.eq_zero_or_pos tp with htp | htp
  · subst htp
    have hp : precFromCounts 0 fp = 0 := by
      unfold precFromCounts; split <;> simp
    have hr : recFromCounts 0 fn = 0 := by
      unfold recFromCounts; split <;> simp
    have hf : f1FromCounts 0 fp fn = 0 := by
      unfold f1FromCounts; split <;> simp
    rw [hp, hr, hf]
    norm_num
  · have hA : (0 : ℚ) < (tp : ℚ) := by exact_mod_cast htp
    have hp : precFromCounts tp fp = (tp : ℚ) / ((tp : ℚ) + (fp : ℚ)) := by
      unfold precFromCounts; rw [if_neg (by omega)]
    have hr : recFromCounts tp fn = (tp : ℚ) / ((tp : ℚ) + (fn : ℚ)) := by
      unfold recFromCounts; rw [if_neg (by omega)]
    have hf : f1FromCounts tp fp fn =
        (2 * (tp : ℚ)) / (2 * (tp : ℚ) + (fp : ℚ) + (fn : ℚ)) := by
      unfold f1FromCounts; rw [if_neg (by omega)]
    have hppos : 0 < precFromCounts tp fp := by rw [hp]; positivity
    have hrpos : 0 < recFromCounts tp fn := by rw [hr]; positivity
    rw [if_neg (add_pos hppos hrpos).ne', hp, hr, hf]
    have hab : (0 : ℚ) < (tp : ℚ) + (fp : ℚ) := by positivity
    have hac : (0 : ℚ) < (tp : ℚ) + (fn : ℚ) := by positivity
    field_simp
    ring

/-- C7: `evaluate_multilabels` scores predictions against gold labels by
per-label precision, recall and F1 — F1 being the harmonic mean of the
label's precision and recall — together with a micro average computed on
the counts pooled over all occurring labels and a macro average that is
the unweighted mean of the per-label scores. -/
theorem evaluate_multilabels_spec (y y_preds : List (List String)) :
    (∀ l, (evaluate_multilabels y y_preds).1 l =
      ⟨precFromCounts (tpCount y y_preds l) (fpCount y y_preds l),
       recFromCounts (tpCount y y_preds l) (fnCount y y_preds l),
       f1FromCounts (tpCount y y_preds l) (fpCount y y_preds l)
         (fnCount y y_preds l)⟩) ∧
    (∀ l, ((evaluate_multilabels y y_preds).1 l).f1 =
      (if ((evaluate_multilabels y y_preds).1 l).precision +
          ((evaluate_multilabels y y_preds).1 l).recallScore = 0 then 0
       else 2 * ((evaluate_multilabels y y_preds).1 l).precision *
          ((evaluate_multilabels y y_preds).1 l).recallScore /
          (((evaluate_multilabels y y_preds).1 l).precision +
            ((evaluate_multilabels y y_preds).1 l).recallScore))) ∧
    ((evaluate_multilabels y y_preds).2.1 =
      ⟨precFromCounts ((labelsOf y y_preds).map (tpCount y y_preds)).sum
          ((labelsOf y y_preds).map (fpCount y y_preds)).sum,
        recFromCounts ((labelsOf y y_preds).map (tpCount y y_preds)).sum
          ((labelsOf y y_preds).map (fnCount y y_preds)).sum,
        f1FromCounts ((labelsOf y y_preds).map (tpCount y y_preds)).sum
          ((labelsOf y y_preds).map (fpCount y y_preds)).sum
          ((labelsOf y y_preds).map (fnCount y y_preds)).sum⟩) ∧
    ((evaluate_multilabels y y_preds).2.2 =
      ⟨((labelsOf y y_preds).map
          (fun l => ((evaluate_multilabels y y_preds).1 l).precision)).sum /
          ((labelsOf y y_preds).length : ℚ),
        ((labelsOf y y_preds).map
          (fun l => ((evaluate_multilabels y y_preds).1 l).recallScore)).sum /
          ((labelsOf y y_preds).length : ℚ),
        ((labelsOf y y_preds).map
          (fun l => ((evaluate_multilabels y y_preds).1 l).f1)).sum /
          ((labelsOf y y_preds).length : ℚ)⟩) :=
  ⟨fun _ => rfl,
   fun l => f1FromCounts_harmonic (tpCount y y_preds l) (fpCount y y_preds l)
     (fnCount y y_preds l),
   rfl, rfl⟩

theorem f1FromCounts_le_one (tp fp fn : ℕ) : f1FromCounts tp fp fn ≤ 1 := by
  unfold f1FromCounts
  split
  · norm_num
  · rename_i h
    apply div_le_one_of_le
    · push_cast
      have h1 : (0 : ℚ) ≤ (fp : ℚ) := by positivity
      have h2 : (0 : ℚ) ≤ (fn : ℚ) := by positivity
      linarith
    · positivity

theorem clfF1At_le_one (P : List (List ℚ)) (G : List (List String))
    (C : List String) (t : ℚ) (l : String) : clfF1At P G C t l ≤ 1 :=
  f1FromCounts_le_one _ _ _

theorem colF1At_le_one (probas truth : List (List ℚ)) (i : ℕ) (t : ℚ) :
    colF1At probas truth i t ≤ 1 :=
  f1FromCounts_le_one _ _ _

/-- If the starting value already has a maximal key, the keep-first fold of
Python's `max` never moves. -/
theorem foldKeep (f : ℚ → ℚ) : ∀ (l : List ℚ) (x : ℚ), (∀ t ∈ l, f t ≤ f x) →
    l.foldl (fun best t => if f best < f t then t else best) x = x := by
  intro l
  induction l with
  | nil => intro x _; rfl
  | cons t0 rest ih =>
    intro x h
    rw [List.foldl_cons, if_neg (not_lt.mpr (h t0 (List.mem_cons_self _ _)))]
    exact ih x (fun t ht => h t (List.mem_cons_of_mem _ ht))

theorem foldPick_spec (f : ℚ → ℚ) : ∀ (l : List ℚ) (x : ℚ),
    f x ≤ f (l.foldl (fun best t => if f best < f t then t else best) x) ∧
    (l.foldl (fun best t => if f best < f t then t else best) x = x ∨
      l.foldl (fun best t => if f best < f t then t else best) x ∈ l) ∧
    (∀ t ∈ l, f t ≤ f (l.foldl (fun best t => if f best < f t then t else best) x)) := by
  intro l
  induction l with
  | nil =>
    intro x
    refine ⟨le_refl _, Or.inl rfl, ?_⟩
    intro t ht
    cases ht
  | cons t0 rest ih =>
    intro x
    rw [List.foldl_cons]
    by_cases h : f x < f t0
    · rw [if_pos h]
      obtain ⟨m1, m2, m3⟩ := ih t0
      refine ⟨le_trans h.le m1, ?_, ?_⟩
      · rcases m2 with h2 | h2
        · exact Or.inr (by rw [h2]; exact List.mem_cons_self _ _)
        · exact Or.inr (List.mem_cons_of_mem _ h2)
      · intro t ht
        rcases List.mem_cons.mp ht with rfl | ht'
        · exact m1
        · exact m3 t ht'
    · rw [if_neg h]
      push_neg at h
      obtain ⟨m1, m2, m3⟩ := ih x
      refine ⟨m1, ?_, ?_⟩
      · rcases m2 with h2 | h2
        · exact Or.inl h2
        · exact Or.inr (List.mem_cons_of_mem _ h2)
      · intro t ht
        rcases List.mem_cons.mp ht with rfl | ht'
        · exact le_trans h m1
        · exact m3 t ht'

/-- Python's `max(xs, key=f)` picks an element of `xs` whose key bounds
every key in `xs`. -/
theorem pymax_spec (f : ℚ → ℚ) (xs : List ℚ) (hne : xs ≠ []) :
    pymax f xs ∈ xs ∧ ∀ t ∈ xs, f t ≤ f (pymax f xs) := by
  cases xs with
  | nil => exact absurd rfl hne
  | cons x rest =>
    obtain ⟨m1, m2, m3⟩ := foldPick_spec f rest x
    simp only [pymax]
    constructor
    · rcases m2 with h2 | h2
      · rw [h2]; exact List.mem_cons_self _ _
      · exact List.mem_cons_of_mem _ h2
    · intro t ht
      rcases List.mem_cons.mp ht with rfl | ht'
      · exact m1
      · exact m3 t ht'

/-- When the head's key is maximal, Python's keep-first `max` returns the
head. -/
theorem pymax_eq_headD (f : ℚ → ℚ) (xs : List ℚ) (hne : xs ≠ [])
    (h : ∀ t ∈ xs, f t ≤ f (xs.headD 0)) : pymax f xs = xs.headD 0 := by
  cases xs with
  | nil => exact absurd rfl hne
  | cons x rest =>
    simp only [List.headD_cons] at h ⊢
    simp only [pymax]
    exact foldKeep f rest x (fun t ht => h t (List.mem_cons_of_mem _ ht))

theorem linspace_length (a b : ℚ) (n : ℕ) : (linspace a b n).length = n := by
  rw [linspace, List.length_map, List.length_range]

theorem linspace_headD (a b : ℚ) (m : ℕ) (d : ℚ) :
    (linspace a b (m + 1)).headD d = a := by
  rw [linspace, List.range_succ_eq_map, List.map_cons, List.headD_cons]
  norm_num

theorem mem_linspace_left (a b : ℚ) (m : ℕ) : a ∈ linspace a b (m + 1) := by
  rw [linspace]
  refine List.mem_map.mpr ⟨0, List.mem_range.mpr (Nat.succ_pos m), ?_⟩
  norm_num

theorem getD_map_of_lt {α β : Type} (f : α → β) (l : List α) (i : ℕ)
    (hi : i < l.length) (d : β) (e : α) :
    (l.map f).getD i d = f (l.getD i e) := by
  rw [List.getD_eq_getElem?_getD, List.getD_eq_getElem?_getD, List.getElem?_map,
    List.getElem?_eq_getElem hi]
  rfl

theorem getD_map_range {α : Type} (g : ℕ → α) (n i : ℕ) (hi : i < n) (d : α) :
    ((List.range n).map g).getD i d = g i := by
  apply getD_map_get?
  rw [List.get?_eq_getElem?, List.getElem?_range hi]

/-- Entry `i` of the DistilBERT `tune_threshs` result. -/
theorem tune_threshs_distil_getD (probas truth : List (List ℚ)) (i : ℕ)
    (hi : i < numCols probas) :
    (tune_threshs_distil probas truth).getD i 0 =
      pymax (colF1At probas truth i) (colGrid probas i) :=
  getD_map_range _ _ i hi 0

/-- Entry `i` of the MLP `tune_threshs` result: the DistilBERT entry with
zero replaced by 0.5. -/
theorem tune_threshs_mlp_getD (probas truth : List (List ℚ)) (i : ℕ)
    (hi : i < numCols probas) :
    (tune_threshs_mlp probas truth).getD i 0 =
      (if (tune_threshs_distil probas truth).getD i 0 = 0 then 1 / 2
       else (tune_threshs_distil probas truth).getD i 0) := by
  have hlen : i < (tune_threshs_distil probas truth).length := by
    simpa [tune_threshs_distil] using hi
  have hmap : tune_threshs_mlp probas truth =
      (tune_threshs_distil probas truth).map (fun x => if x = 0 then 1 / 2 else x) :=
    rfl
  rw [hmap, getD_map_of_lt _ _ i hlen 0 0]

/-- C2 corrected/amended: the MLP and DistilBERT `tune_threshs` implement
one and the same grid search — the MLP result is exactly the DistilBERT
result with zero thresholds replaced by 0.5 — while the
logistic-regression pipeline's `tune_clf_thresholds` searches the
different grid {0.1, ..., 0.9} and need not agree with either (see the
counterexample). -/
theorem tune_threshs_mlp_eq_distil_map (probas truth : List (List ℚ)) :
    tune_threshs_mlp probas truth =
      (tune_threshs_distil probas truth).map (fun x => if x = 0 then 1 / 2 else x) :=
  rfl

/-- On the score column `[0, 1]` against truth column `[0, 1]`, threshold 0
already classifies perfectly. -/
theorem colF1At_zero_one_at_zero : colF1At [[0], [1]] [[0], [1]] 0 0 = 1 := by
  norm_num [colF1At, binF1, column, f1FromCounts]

/-- The DistilBERT grid search on scores `[0, 1]` with truth `[0, 1]`
returns threshold 0 (the first grid point, whose F1 is already maximal). -/
theorem tune_threshs_distil_zero_one :
    (tune_threshs_distil [[0], [1]] [[0], [1]]).getD 0 0 = 0 := by
  have hmin : colMin (column [[0], [1]] 0) = 0 := by norm_num [colMin, column]
  have hmx : colMax (column [[0], [1]] 0) = 1 := by norm_num [colMax, column]
  have hgrid : colGrid [[0], [1]] 0 = linspace 0 1 100 := by
    unfold colGrid
    rw [hmin, hmx]
  have hhead : (colGrid [[0], [1]] 0).headD 0 = 0 := by
    rw [hgrid]
    exact linspace_headD 0 1 99 0
  have hne : colGrid [[0], [1]] 0 ≠ [] := by
    rw [hgrid]
    intro hcon
    have hl := linspace_length 0 1 100
    rw [hcon] at hl
    simp at hl
  rw [tune_threshs_distil_getD _ _ 0 (by norm_num [numCols])]
  rw [pymax_eq_headD _ _ hne ?_, hhead]
  intro t _
  rw [hhead, colF1At_zero_one_at_zero]
  exact colF1At_le_one _ _ _ _

/-- On scores `[0, 1]` and gold lists `[[], ["a"]]`, every grid threshold
of the logistic-regression search scores F1 = 1 for label `"a"`. -/
theorem clfF1At_zero_one_at_tenth :
    clfF1At [[0], [1]] [[], ["a"]] ["a"] (1 / 10) "a" = 1 := by
  norm_num [clfF1At, evaluate_multilabels, prfOfLabel, tpCount, fpCount, fnCount,
    f1FromCounts, stringify_labels, stringifyRow, triggeredIndices]

set_option maxRecDepth 8000 in
/-- C2 counterexample: on the same score matrix `[[0], [1]]` and the same
gold labels (`[[], ["a"]]` as lists, `[[0], [1]]` as their multi-hot
binarization for label set `["a"]`), the three tuners return pairwise
different thresholds: DistilBERT 0, MLP 0.5, logistic regression 0.1. -/
theorem tuning_procedures_differ_counterexample :
    goldMultihot ["a"] [[], ["a"]] = [[0], [1]] ∧
    (tune_threshs_distil [[0], [1]] [[0], [1]]).getD 0 0 = 0 ∧
    (tune_threshs_mlp [[0], [1]] [[0], [1]]).getD 0 0 = 1 / 2 ∧
    (tune_clf_thresholds [[0], [1]] [[], ["a"]] ["a"]).2 "a" = 1 / 10 ∧
    ((0 : ℚ) ≠ 1 / 2 ∧ (0 : ℚ) ≠ 1 / 10 ∧ (1 / 2 : ℚ) ≠ 1 / 10) := by
  have hgm : goldMultihot ["a"] [[], ["a"]] = [[0], [1]] := by
    simp [goldMultihot]
  have hdistil := tune_threshs_distil_zero_one
  have hmlp : (tune_threshs_mlp [[0], [1]] [[0], [1]]).getD 0 0 = 1 / 2 := by
    rw [tune_threshs_mlp_getD _ _ 0 (by norm_num [numCols]), hdistil]
    norm_num
  have hclf : (tune_clf_thresholds [[0], [1]] [[], ["a"]] ["a"]).2 "a" = 1 / 10 := by
    obtain ⟨hmem, hmax, htie, _⟩ := clf_label_threshs_spec [[0], [1]] [[], ["a"]] ["a"] "a"
    have hone := clfF1At_zero_one_at_tenth
    have hfth : clfF1At [[0], [1]] [[], ["a"]] ["a"]
        (clf_label_threshs [[0], [1]] [[], ["a"]] ["a"] "a") "a" = 1 := by
      refine le_antisymm (clfF1At_le_one _ _ _ _ _) ?_
      have := hmax (1 / 10) one_tenth_mem_threshRange
      rwa [hone] at this
    have hle := htie (1 / 10) one_tenth_mem_threshRange (by rw [hone, hfth])
    exact le_antisymm hle (threshRange_lb _ hmem)
  exact ⟨hgm, hdistil, hmlp, hclf, by norm_num, by norm_num, by norm_num⟩

/-- C4 corrected/amended: for the DistilBERT `tune_threshs` the returned
threshold's F1 is maximal over the whole 100-point grid between the
column's minimum and maximum; the MLP `tune_threshs` computes the same
grid maximizer but replaces a zero threshold by 0.5 afterwards (so its
returned value need not attain the maximal F1; see the counterexample). -/
theorem tune_threshs_distil_maximizes_f1
    (probas truth : List (List ℚ)) (i : ℕ) (hi : i < numCols probas)
    (t : ℚ) (ht : t ∈ colGrid probas i) :
    colF1At probas truth i t ≤
      colF1At probas truth i ((tune_threshs_distil probas truth).getD i 0) ∧
    (tune_threshs_mlp probas truth).getD i 0 =
      (if (tune_threshs_distil probas truth).getD i 0 = 0 then 1 / 2
       else (tune_threshs_distil probas truth).getD i 0) := by
  have hne : colGrid probas i ≠ [] := List.ne_nil_of_mem ht
  obtain ⟨_, hmax⟩ := pymax_spec (colF1At probas truth i) (colGrid probas i) hne
  refine ⟨?_, tune_threshs_mlp_getD probas truth i hi⟩
  rw [tune_threshs_distil_getD probas truth i hi]
  exact hmax t ht

theorem tune_threshs_distil_maximizes_f1_witness :
    colF1At [[0], [1]] [[0], [1]] 0 0 ≤
      colF1At [[0], [1]] [[0], [1]] 0
        ((tune_threshs_distil [[0], [1]] [[0], [1]]).getD 0 0) ∧
    (tune_threshs_mlp [[0], [1]] [[0], [1]]).getD 0 0 =
      (if (tune_threshs_distil [[0], [1]] [[0], [1]]).getD 0 0 = 0 then 1 / 2
       else (tune_threshs_distil [[0], [1]] [[0], [1]]).getD 0 0) := by
  refine tune_threshs_distil_maximizes_f1 [[0], [1]] [[0], [1]] 0
    (by norm_num [numCols]) 0 ?_
  have hmin : colMin (column [[0], [1]] 0) = 0 := by norm_num [colMin, column]
  have hmx : colMax (column [[0], [1]] 0) = 1 := by norm_num [colMax, column]
  unfold colGrid
  rw [hmin, hmx]
  exact mem_linspace_left 0 1 99

/-- C4 counterexample: on scores `[[0], [2/5]]` with truth `[[0], [1]]`
the MLP tuner returns 0.5 — whose F1 (0) is strictly below the F1 (1) of
the grid point 0 — because the grid maximizer 0 was replaced by 0.5. -/
theorem tune_threshs_mlp_not_optimal_counterexample :
    (tune_threshs_mlp [[0], [2 / 5]] [[0], [1]]).getD 0 0 = 1 / 2 ∧
    (0 : ℚ) ∈ colGrid [[0], [2 / 5]] 0 ∧
    colF1At [[0], [2 / 5]] [[0], [1]] 0
        ((tune_threshs_mlp [[0], [2 / 5]] [[0], [1]]).getD 0 0) <
      colF1At [[0], [2 / 5]] [[0], [1]] 0 0 := by
  have hmin : colMin (column [[0], [2 / 5]] 0) = 0 := by norm_num [colMin, column]
  have hmx : colMax (column [[0], [2 / 5]] 0) = 2 / 5 := by
    norm_num [colMax, column]
  have hgrid : colGrid [[0], [2 / 5]] 0 = linspace 0 (2 / 5) 100 := by
    unfold colGrid
    rw [hmin, hmx]
  have hf0 : colF1At [[0], [2 / 5]] [[0], [1]] 0 0 = 1 := by
    norm_num [colF1At, binF1, column, f1FromCounts]
  have hfhalf : colF1At [[0], [2 / 5]] [[0], [1]] 0 (1 / 2) = 0 := by
    norm_num [colF1At, binF1, column, f1FromCounts]
  have hhead : (colGrid [[0], [2 / 5]] 0).headD 0 = 0 := by
    rw [hgrid]
    exact linspace_headD 0 (2 / 5) 99 0
  have hne : colGrid [[0], [2 / 5]] 0 ≠ [] := by
    rw [hgrid]
    intro hcon
    have hl := linspace_length 0 (2 / 5) 100
    rw [hcon] at hl
    simp at hl
  have hdistil : (tune_threshs_distil [[0], [2 / 5]] [[0], [1]]).getD 0 0 = 0 := by
    rw [tune_threshs_distil_getD _ _ 0 (by norm_num [numCols])]
    rw [pymax_eq_headD _ _ hne ?_, hhead]
    intro t _
    rw [hhead, hf0]
    exact colF1At_le_one _ _ _ _
  have hmlp : (tune_threshs_mlp [[0], [2 / 5]] [[0], [1]]).getD 0 0 = 1 / 2 := by
    rw [tune_threshs_mlp_getD _ _ 0 (by norm_num [numCols]), hdistil]
    norm_num
  refine ⟨hmlp, ?_, ?_⟩
  · rw [hgrid]
    exact mem_linspace_left 0 (2 / 5) 99
  · rw [hmlp, hfhalf, hf0]
    norm_num

/-- C5 counterexample: at a score exactly equal to its threshold the two
discretizations disagree: `stringify_labels` (comparison `>=`) predicts
the label while `apply_threshs` (strict `>`) followed by
`multihot_to_label_lists` does not. -/
theorem stringify_vs_apply_threshs_counterexample :
    stringify_labels [[1 / 2]] ["a"] 0 (some (fun _ => 1 / 2)) = [["a"]] ∧
    multihot_to_label_lists
        (apply_threshs [[1 / 2]] (["a"].map (fun _ => (1 : ℚ) / 2))) ["a"] = [[]] ∧
    stringify_labels [[1 / 2]] ["a"] 0 (some (fun _ => 1 / 2)) ≠
      multihot_to_label_lists
        (apply_threshs [[1 / 2]] (["a"].map (fun _ => (1 : ℚ) / 2))) ["a"] := by
  have h1 : stringify_labels [[1 / 2]] ["a"] 0 (some (fun _ => 1 / 2)) = [["a"]] := by
    norm_num [stringify_labels, stringifyRow, triggeredIndices]
    rfl
  have h2 : multihot_to_label_lists
      (apply_threshs [[1 / 2]] (["a"].map (fun _ => (1 : ℚ) / 2))) ["a"] = [[]] := by
    norm_num [multihot_to_label_lists, apply_threshs]
  refine ⟨h1, h2, ?_⟩
  rw [h1, h2]
  simp

/-- C5 corrected/amended: whenever no score ties its label's threshold
exactly, the two discretizations agree: `stringify_labels` equals
`apply_threshs` followed by `multihot_to_label_lists` with the
corresponding label map. -/
theorem stringify_eq_apply_multihot_of_no_ties
    (probas : List (List ℚ)) (classes : List String) (lt : String → ℚ)
    (hrect : ∀ row ∈ probas, row.length = classes.length)
    (hne : ∀ row ∈ probas, ∀ i, i < classes.length →
      row.getD i 0 ≠ (classes.map lt).getD i 0) :
    stringify_labels probas classes (1 / 2) (some lt) =
      multihot_to_label_lists (apply_threshs probas (classes.map lt)) classes := by
  simp only [stringify_labels, multihot_to_label_lists, apply_threshs,
    Option.getD_some, List.map_map]
  apply List.map_congr_left
  intro row hrow
  have hrlen : row.length = classes.length := hrect row hrow
  simp only [Function.comp_apply]
  rw [stringifyRow, triggeredIndices]
  have hlen' : ((List.range row.length).map
      (fun i => if (classes.map lt).getD i 0 < row.getD i 0 then (1 : ℚ) else 0)).length
      = row.length := by
    rw [List.length_map, List.length_range]
  rw [hlen']
  have hminlen : min row.length (classes.map lt).length = row.length := by
    rw [List.length_map, hrlen, min_self]
  rw [hminlen]
  congr 1
  apply List.filter_congr
  intro i hi
  rw [List.mem_range] at hi
  rw [getD_map_range _ row.length i hi 0]
  rcases lt_trichotomy ((classes.map lt).getD i 0) (row.getD i 0) with hlt | heq | hgt
  · rw [if_pos hlt, decide_eq_decide]
    exact iff_of_true hlt.le (by norm_num)
  · exact absurd heq.symm (hne row hrow i (hrlen ▸ hi))
  · rw [if_neg (lt_asymm hgt), decide_eq_decide]
    exact iff_of_false (not_le.mpr hgt) (by norm_num)

theorem stringify_eq_apply_multihot_witness :
    stringify_labels [[1]] ["a"] (1 / 2) (some (fun _ => 1 / 2)) =
      multihot_to_label_lists
        (apply_threshs [[1]] (["a"].map (fun _ => (1 : ℚ) / 2))) ["a"] := by
  apply stringify_eq_apply_multihot_of_no_ties
  · intro row hrow
    rw [List.mem_singleton] at hrow
    subst hrow
    rfl
  · intro row hrow i hi
    rw [List.mem_singleton] at hrow
    subst hrow
    rw [List.length_singleton, Nat.lt_one_iff] at hi
    subst hi
    norm_num

theorem threshRange_eq :
    threshRange = [1 / 10, 2 / 10, 3 / 10, 4 / 10, 5 / 10, 6 / 10, 7 / 10,
      8 / 10, 9 / 10] := by
  simp [threshRange, List.range']

/-- C6 corrected/amended: every pipeline tunes per-label thresholds on
model scores for some split, discretizes with them and scores with
`evaluate_multilabels`; but the tuning split does not play one common role:
the MLP pipeline tunes on the dev split and evaluates the test split,
while the logistic-regression and DistilBERT pipelines tune on the very
split they evaluate (their results do not depend on the dev split at
all). -/
theorem pipelines_split_roles (classes : List String) (S : Splits) :
    lrTuneScores S = S.testScores ∧ lrTuneGold S = S.testGold ∧
    lrEvalGold S = S.testGold ∧
    mlpTuneScores S = S.devScores ∧ mlpTuneGold S = S.devGold ∧
    mlpEvalGold S = S.testGold ∧
    distilTuneScores S = S.testScores ∧
    distilTuneGoldM classes S = goldMultihot classes S.testGold ∧
    lrResult classes S =
      evaluate_multilabels (lrEvalGold S)
        (tune_clf_thresholds (lrTuneScores S) (lrTuneGold S) classes).1 ∧
    mlpResult classes S =
      evaluate_multilabels (mlpEvalGold S)
        (stringify_labels S.testScores classes (1 / 2)
          (some (utils_tune_clf_thresholds (mlpTuneScores S) (mlpTuneGold S)
            classes))) ∧
    distilResult classes S =
      evaluate_multilabels (distilEvalGold classes S)
        (multihot_to_label_lists
          (apply_threshs (distilTuneScores S)
            (tune_threshs_distil (distilTuneScores S) (distilTuneGoldM classes S)))
          classes) ∧
    (∀ ds dg, lrResult classes ⟨ds, dg, S.testScores, S.testGold⟩ =
      lrResult classes S) ∧
    (∀ ds dg, distilResult classes ⟨ds, dg, S.testScores, S.testGold⟩ =
      distilResult classes S) :=
  ⟨rfl, rfl, rfl, rfl, rfl, rfl, rfl, rfl, rfl, rfl, rfl,
    fun _ _ => rfl, fun _ _ => rfl⟩

set_option maxRecDepth 8000 in
set_option maxHeartbeats 1600000 in
/-- C6 counterexample: the tuning split does not play the same role
relative to the evaluated split in every pipeline.  For the
logistic-regression pipeline the tuning gold labels are the evaluated
split's; for the MLP pipeline they are the dev split's (here different).
Concretely, two `Splits` that agree on the test split but differ on the
dev split give identical logistic-regression predictions yet different MLP
predictions: the MLP thresholds are tuned on dev (0.3 versus 0.1 for label
`"a"`), so the same test score 0.2 is discretized differently. -/
theorem pipelines_split_roles_counterexample :
    lrTuneGold ⟨[[2 / 10], [8 / 10]], [[], ["a"]], [[2 / 10]], [["a"]]⟩ =
      lrEvalGold ⟨[[2 / 10], [8 / 10]], [[], ["a"]], [[2 / 10]], [["a"]]⟩ ∧
    mlpTuneGold ⟨[[2 / 10], [8 / 10]], [[], ["a"]], [[2 / 10]], [["a"]]⟩ ≠
      mlpEvalGold ⟨[[2 / 10], [8 / 10]], [[], ["a"]], [[2 / 10]], [["a"]]⟩ ∧
    lrPredictions ["a"] ⟨[[2 / 10], [8 / 10]], [[], ["a"]], [[2 / 10]], [["a"]]⟩ =
      lrPredictions ["a"] ⟨[[1], [1]], [["a"], ["a"]], [[2 / 10]], [["a"]]⟩ ∧
    mlpPredictions ["a"] ⟨[[2 / 10], [8 / 10]], [[], ["a"]], [[2 / 10]], [["a"]]⟩
      = [[]] ∧
    mlpPredictions ["a"] ⟨[[1], [1]], [["a"], ["a"]], [[2 / 10]], [["a"]]⟩
      = [["a"]] := by
  have hA1 : clfF1At [[2 / 10], [8 / 10]] [[], ["a"]] ["a"] (1 / 10) "a" = 2 / 3 := by
    norm_num [clfF1At, evaluate_multilabels, prfOfLabel, tpCount, fpCount, fnCount,
      f1FromCounts, stringify_labels, stringifyRow, triggeredIndices, List.range_succ, List.range_zero]
  have hA2 : clfF1At [[2 / 10], [8 / 10]] [[], ["a"]] ["a"] (2 / 10) "a" = 2 / 3 := by
    norm_num [clfF1At, evaluate_multilabels, prfOfLabel, tpCount, fpCount, fnCount,
      f1FromCounts, stringify_labels, stringifyRow, triggeredIndices, List.range_succ, List.range_zero]
  have hA3 : clfF1At [[2 / 10], [8 / 10]] [[], ["a"]] ["a"] (3 / 10) "a" = 1 := by
    norm_num [clfF1At, evaluate_multilabels, prfOfLabel, tpCount, fpCount, fnCount,
      f1FromCounts, stringify_labels, stringifyRow, triggeredIndices, List.range_succ, List.range_zero]
  have hB1 : clfF1At [[1], [1]] [["a"], ["a"]] ["a"] (1 / 10) "a" = 1 := by
    norm_num [clfF1At, evaluate_multilabels, prfOfLabel, tpCount, fpCount, fnCount,
      f1FromCounts, stringify_labels, stringifyRow, triggeredIndices, List.range_succ, List.range_zero]
  have h310mem : (3 : ℚ) / 10 ∈ threshRange := by
    rw [threshRange_eq]
    norm_num
  have hthA : utils_tune_clf_thresholds [[2 / 10], [8 / 10]] [[], ["a"]] ["a"] "a"
      = 3 / 10 := by
    obtain ⟨hmem, hmax, htie, _⟩ :=
      clf_label_threshs_spec [[2 / 10], [8 / 10]] [[], ["a"]] ["a"] "a"
    have hfth : clfF1At [[2 / 10], [8 / 10]] [[], ["a"]] ["a"]
        (clf_label_threshs [[2 / 10], [8 / 10]] [[], ["a"]] ["a"] "a") "a" = 1 := by
      refine le_antisymm (clfF1At_le_one _ _ _ _ _) ?_
      have := hmax (3 / 10) h310mem
      rwa [hA3] at this
    have hle := htie (3 / 10) h310mem (by rw [hA3, hfth])
    rw [threshRange_eq] at hmem
    simp only [List.mem_cons, List.not_mem_nil, or_false] at hmem
    rcases hmem with h | h | h | h | h | h | h | h | h
    · rw [h] at hfth
      rw [hA1] at hfth
      norm_num at hfth
    · rw [h] at hfth
      rw [hA2] at hfth
      norm_num at hfth
    · exact h
    · rw [h] at hle; norm_num at hle
    · rw [h] at hle; norm_num at hle
    · rw [h] at hle; norm_num at hle
    · rw [h] at hle; norm_num at hle
    · rw [h] at hle; norm_num at hle
    · rw [h] at hle; norm_num at hle
  have hthB : utils_tune_clf_thresholds [[1], [1]] [["a"], ["a"]] ["a"] "a"
      = 1 / 10 := by
    obtain ⟨hmem, hmax, htie, _⟩ :=
      clf_label_threshs_spec [[1], [1]] [["a"], ["a"]] ["a"] "a"
    have hfth : clfF1At [[1], [1]] [["a"], ["a"]] ["a"]
        (clf_label_threshs [[1], [1]] [["a"], ["a"]] ["a"] "a") "a" = 1 := by
      refine le_antisymm (clfF1At_le_one _ _ _ _ _) ?_
      have := hmax (1 / 10) one_tenth_mem_threshRange
      rwa [hB1] at this
    have hle := htie (1 / 10) one_tenth_mem_threshRange (by rw [hB1, hfth])
    exact le_antisymm hle (threshRange_lb _ hmem)
  have hpredA : mlpPredictions ["a"]
      ⟨[[2 / 10], [8 / 10]], [[], ["a"]], [[2 / 10]], [["a"]]⟩ = [[]] := by
    have hstep : mlpPredictions ["a"]
        ⟨[[2 / 10], [8 / 10]], [[], ["a"]], [[2 / 10]], [["a"]]⟩ =
        [stringifyRow ["a"] [2 / 10]
          [utils_tune_clf_thresholds [[2 / 10], [8 / 10]] [[], ["a"]] ["a"] "a"]] :=
      rfl
    rw [hstep, hthA]
    norm_num [stringifyRow, triggeredIndices, List.range_succ, List.range_zero]
  have hpredB : mlpPredictions ["a"]
      ⟨[[1], [1]], [["a"], ["a"]], [[2 / 10]], [["a"]]⟩ = [["a"]] := by
    have hstep : mlpPredictions ["a"]
        ⟨[[1], [1]], [["a"], ["a"]], [[2 / 10]], [["a"]]⟩ =
        [stringifyRow ["a"] [2 / 10]
          [utils_tune_clf_thresholds [[1], [1]] [["a"], ["a"]] ["a"] "a"]] :=
      rfl
    rw [hstep, hthB]
    norm_num [stringifyRow, triggeredIndices, List.range_succ, List.range_zero]
    rfl
  exact ⟨rfl, by simp [mlpTuneGold, mlpEvalGold], rfl, hpredA, hpredB⟩
